import Mathlib

/-!
Verification development for the hkex-ipo-watch repository.

The two Python scripts `src/fetch_hkex_ap.py` and `src/send_email.py` are
shallowly embedded here.  Strings are modelled as `List Char` (Python strings
are sequences of code points), Python's `re` searches over the handful of
concrete patterns the scripts use are implemented as explicit backtracking
matchers over those lists, `None`-returning functions become `Option`, and
raising functions become `Except`.  The browser/IO layers (Playwright
navigation, file writes, SMTP) are not modelled: `build_payload` is
parameterised by the scraped rows and by the current Hong Kong date, which is
exactly the data those layers feed into the pure pipeline.
-/

set_option maxRecDepth 10000

/-! ### Character and string helpers (Python `str` semantics on the ASCII/CJK range) -/

/-- Whitespace characters recognised by Python's `str.strip` and regex `\s`
(ASCII range, which is all that the scraped text contains). -/
def isWsChar (c : Char) : Bool :=
  c = ' ' || c = '\t' || c = '\n' || c = '\r' || c = '\x0b' || c = '\x0c'

def digitVal (c : Char) : Nat := c.toNat - 48

def isLowerAlpha (c : Char) : Bool := 'a' ≤ c && c ≤ 'z'

/-- Python regex word character `\w`, restricted to the character repertoire
this program meets: ASCII alphanumerics, underscore, CJK unified ideographs. -/
def isWordChar (c : Char) : Bool :=
  c.isAlphanum || c = '_' || (0x4E00 ≤ c.toNat && c.toNat ≤ 0x9FFF)

/-- Python `str.lower` (ASCII letters; CJK characters are unchanged). -/
def lowerList (cs : List Char) : List Char := cs.map Char.toLower

/-- Python `str.strip()`. -/
def pyStrip (cs : List Char) : List Char :=
  ((cs.dropWhile isWsChar).reverse.dropWhile isWsChar).reverse

/-- Python `needle in hay` on strings. -/
def listContainsSub (hay needle : List Char) : Bool :=
  needle.isPrefixOf hay ||
    match hay with
    | [] => false
    | _ :: t => listContainsSub t needle

/-- Case-insensitive prefix test: `needle` is stored lowercase and compared
against the lowercased head of `hay`. -/
def ciPrefixMatch : List Char → List Char → Bool
  | [], _ => true
  | _ :: _, [] => false
  | n :: ns, h :: hs => n = h.toLower && ciPrefixMatch ns hs

def collapseWsAux : Bool → List Char → List Char
  | _, [] => []
  | prevWs, c :: cs =>
    if isWsChar c then
      if prevWs then collapseWsAux true cs else ' ' :: collapseWsAux true cs
    else c :: collapseWsAux false cs

/-- `normalize_spaces`: `re.sub(r"\s+", " ", s).strip()`. -/
def normalize_spaces (cs : List Char) : List Char := pyStrip (collapseWsAux false cs)

/-- Python `" ".join(parts)`. -/
def joinSpace (parts : List (List Char)) : List Char := List.intercalate [' '] parts

/-! ### Date regex matchers (`parse_any_date_to_iso` and the posting-date label) -/

/-- Separator class `[\/\-.]` of the year-first pattern. -/
def isSepDot (c : Char) : Bool := c = '/' || c = '-' || c = '.'

/-- Separator class `[\/\-]` of the day-first pattern. -/
def isSepSlash (c : Char) : Bool := c = '/' || c = '-'

/-- Greedy `\d{1,2}` with backtracking: try to consume two digits and run the
continuation `k value ndigits rest`; if that fails end to end, retry with one
digit, exactly like Python's backtracking regex engine. -/
def tryTwoThenOne (cs : List Char) (k : Nat → Nat → List Char → Option α) : Option α :=
  (match cs with
   | a :: b :: rest =>
     if a.isDigit && b.isDigit then k (10 * digitVal a + digitVal b) 2 rest else none
   | _ => none)
  <|>
  (match cs with
   | a :: rest => if a.isDigit then k (digitVal a) 1 rest else none
   | _ => none)

/-- Anchored match of `(20\d{2})[\/\-.](\d{1,2})[\/\-.](\d{1,2})` at the head
of the input; returns `(year, month, day, matched length)`. -/
def matchP1At (cs : List Char) : Option (Nat × Nat × Nat × Nat) :=
  match cs with
  | '2' :: '0' :: a :: b :: s :: rest =>
    if a.isDigit && b.isDigit && isSepDot s then
      tryTwoThenOne rest (fun mo mn rest2 =>
        match rest2 with
        | s2 :: rest3 =>
          if isSepDot s2 then
            tryTwoThenOne rest3 (fun d dn _ =>
              some (2000 + 10 * digitVal a + digitVal b, mo, d, 5 + mn + 1 + dn))
          else none
        | [] => none)
    else none
  | _ => none

/-- Anchored match of `(\d{1,2})[\/\-](\d{1,2})[\/\-](20\d{2})`; returns
`(year, month, day, matched length)` (the day group comes first in the text). -/
def matchP2At (cs : List Char) : Option (Nat × Nat × Nat × Nat) :=
  tryTwoThenOne cs (fun d dn rest =>
    match rest with
    | s :: rest2 =>
      if isSepSlash s then
        tryTwoThenOne rest2 (fun mo mn rest3 =>
          match rest3 with
          | s2 :: '2' :: '0' :: a :: b :: _ =>
            if isSepSlash s2 && a.isDigit && b.isDigit then
              some (2000 + 10 * digitVal a + digitVal b, mo, d, dn + 1 + mn + 5)
            else none
          | _ => none)
      else none
    | [] => none)

/-- Anchored match of `(20\d{2})年(\d{1,2})月(\d{1,2})日`; returns
`(year, month, day, matched length)`. -/
def matchP3At (cs : List Char) : Option (Nat × Nat × Nat × Nat) :=
  match cs with
  | '2' :: '0' :: a :: b :: '年' :: rest =>
    if a.isDigit && b.isDigit then
      tryTwoThenOne rest (fun mo mn rest2 =>
        match rest2 with
        | '月' :: rest3 =>
          tryTwoThenOne rest3 (fun d dn rest4 =>
            match rest4 with
            | '日' :: _ => some (2000 + 10 * digitVal a + digitVal b, mo, d, 5 + mn + 1 + dn + 1)
            | _ => none)
        | _ => none)
    else none
  | _ => none

/-- `re.search`: leftmost match of an anchored matcher, keeping the groups. -/
def searchGroups (m : List Char → Option (Nat × Nat × Nat × Nat)) :
    List Char → Option (Nat × Nat × Nat)
  | [] => none
  | c :: cs =>
    match m (c :: cs) with
    | some (y, mo, d, _) => some (y, mo, d)
    | none => searchGroups m cs

def searchP1 (cs : List Char) : Option (Nat × Nat × Nat) := searchGroups matchP1At cs
def searchP2 (cs : List Char) : Option (Nat × Nat × Nat) := searchGroups matchP2At cs
def searchP3 (cs : List Char) : Option (Nat × Nat × Nat) := searchGroups matchP3At cs

def isLeapYear (y : Nat) : Bool := y % 4 = 0 && (y % 100 ≠ 0 || y % 400 = 0)

def daysInMonth (y m : Nat) : Nat :=
  if m = 2 then (if isLeapYear y then 29 else 28)
  else if m = 4 || m = 6 || m = 9 || m = 11 then 30
  else 31

/-- Python `datetime(y, mo, d)` succeeds (for the years `20\d{2}` produces). -/
def validYMD (y mo d : Nat) : Bool :=
  1 ≤ mo && mo ≤ 12 && 1 ≤ d && d ≤ daysInMonth y mo

def pad2 (n : Nat) : String := if n < 10 then "0" ++ toString n else toString n

/-- `date(y, mo, d).isoformat()` for four-digit years. -/
def isoOfYMD (y mo d : Nat) : String := toString y ++ "-" ++ pad2 mo ++ "-" ++ pad2 d

/-- `parse_any_date_to_iso`: try the year-first numeric pattern, then the
day-first numeric pattern, then the Chinese pattern; on the first pattern that
matches, return the ISO date or `None` if the matched numbers are not a valid
calendar date, without falling through to the later patterns. -/
def parse_any_date_to_iso (text : String) : Option String :=
  let cs := pyStrip text.data
  match searchP1 cs with
  | some (y, mo, d) => if validYMD y mo d then some (isoOfYMD y mo d) else none
  | none =>
    match searchP2 cs with
    | some (y, mo, d) => if validYMD y mo d then some (isoOfYMD y mo d) else none
    | none =>
      match searchP3 cs with
      | some (y, mo, d) => if validYMD y mo d then some (isoOfYMD y mo d) else none
      | none => none

example : parse_any_date_to_iso "發布日期: 2024-3-5" = some "2024-03-05" := by decide
example : parse_any_date_to_iso "31/12/2024 tail" = some "2024-12-31" := by decide
example : parse_any_date_to_iso "2026年2月26日" = some "2026-02-26" := by decide
example : parse_any_date_to_iso "2024-02-30 2026年2月26日" = none := by decide
example : parse_any_date_to_iso "nothing here" = none := by decide

/-! ### Board and document-type detection -/

/-- `detect_board`. -/
def detect_board (raw : List Char) : Option String :=
  let t := lowerList raw
  if listContainsSub t "gem".data then some "GEM"
  else if listContainsSub t "main board".data || listContainsSub t "mainboard".data
      || listContainsSub raw "主板".data then some "Main Board"
  else none

def boundaryNotLower (rest : List Char) : Bool :=
  match rest with
  | [] => true
  | d :: _ => !isLowerAlpha d

/-- One step of the scan for the standalone-word pattern `(?<![a-z])ap(?![a-z])`;
`prev` is the character just before the current position. -/
def standaloneApAux : Option Char → List Char → Bool
  | _, [] => false
  | prev, c :: cs =>
    (c = 'a' &&
      (match cs with
       | 'p' :: rest =>
         (match prev with
          | none => true
          | some p => !isLowerAlpha p) && boundaryNotLower rest
       | _ => false))
    || standaloneApAux (some c) cs

/-- `re.search(r"(?<![a-z])ap(?![a-z])", t)` succeeds. -/
def standaloneAp (t : List Char) : Bool := standaloneApAux none t

/-- `detect_doc_type`: PHIP markers dominate, then the AP markers, then a
standalone word `ap`. -/
def detect_doc_type (raw : List Char) : Option String :=
  let t := lowerList raw
  if listContainsSub t "phip".data || listContainsSub t "post hearing information pack".data
      || listContainsSub raw "聆訊後資料集".data || listContainsSub raw "聆讯后资料集".data then
    some "PHIP"
  else if listContainsSub t "application proof".data || listContainsSub raw "申請版本".data
      || listContainsSub raw "申请版本".data then
    some "AP"
  else if standaloneAp t then
    some "AP"
  else none

/-- The PHIP condition of `detect_doc_type`, named for the statement of C9. -/
def phipMarkerPresent (raw : List Char) : Bool :=
  listContainsSub (lowerList raw) "phip".data
    || listContainsSub (lowerList raw) "post hearing information pack".data
    || listContainsSub raw "聆訊後資料集".data
    || listContainsSub raw "聆讯后资料集".data

/-- The union of both AP conditions of `detect_doc_type`, named for C9. -/
def apMarkerPresent (raw : List Char) : Bool :=
  listContainsSub (lowerList raw) "application proof".data
    || listContainsSub raw "申請版本".data
    || listContainsSub raw "申请版本".data
    || standaloneAp (lowerList raw)

/-- `looks_like_pdf_link`. -/
def looks_like_pdf_link (href : String) : Bool :=
  listContainsSub (lowerList href.data) ".pdf".data
    || listContainsSub (lowerList href.data) "pdf".data

def noiseKeywords : List String :=
  [ "prolonged suspension status report"
  , "board meeting notifications"
  , "exchange reports"
  , "monthly prolonged suspension"
  , "status report on delisting proceedings and suspensions"
  , "shareholding disclosures"
  , "listed company publications"
  , "market data"
  , "circulars"
  , "announcements and notices"
  , "listed company information"
  , "disclosure of interests"
  , "new listings information"
  , "home page" ]

/-- `is_obvious_nav_noise`. -/
def is_obvious_nav_noise (text : List Char) : Bool :=
  noiseKeywords.any (fun k => listContainsSub (lowerList text) k.data)

/-- The material-hint test of `row_to_record` (the `re.I` search for
`申請版本|申请版本|聆訊後資料集|聆讯后资料集|Application Proof|PHIP`). -/
def hasMaterialHint (combined : List Char) : Bool :=
  let lc := lowerList combined
  listContainsSub lc "申請版本".data || listContainsSub lc "申请版本".data
    || listContainsSub lc "聆訊後資料集".data || listContainsSub lc "聆讯后资料集".data
    || listContainsSub lc "application proof".data || listContainsSub lc "phip".data

/-! ### The `re.sub`/`str.replace` engine used by `infer_applicant_name` -/

/-- Replace every non-overlapping, leftmost-first match of `m` by the empty
string.  `m prev s` returns the number of characters matched at the head of
`s`, where `prev` is the original character just before `s` (for `\b`).
The fuel starts at the input length; every step consumes at least one
character, so the fuel never runs out. -/
def subAllAux (m : Option Char → List Char → Option Nat) :
    Nat → Option Char → List Char → List Char
  | 0, _, s => s
  | fuel + 1, prev, s =>
    match s with
    | [] => []
    | c :: cs =>
      match m prev (c :: cs) with
      | some k => subAllAux m fuel ((c :: cs).take k).getLast? ((c :: cs).drop k)
      | none => c :: subAllAux m fuel (some c) cs

def runSub (m : Option Char → List Char → Option Nat) (cs : List Char) : List Char :=
  subAllAux m cs.length none cs

def wordBoundaryBefore (prev : Option Char) : Bool :=
  match prev with
  | none => true
  | some c => !isWordChar c

def wordBoundaryAfter (rest : List Char) : Bool :=
  match rest with
  | [] => true
  | c :: _ => !isWordChar c

/-- Case-insensitive word-bounded alternation matcher (`\b(alt|..)\b` with
`re.I`); the alternatives are tried in order, as Python does. -/
def ciWordAltsMatch (alts : List (List Char)) (prev : Option Char) (s : List Char) : Option Nat :=
  alts.findSome? (fun alt =>
    if ciPrefixMatch alt s && wordBoundaryBefore prev && wordBoundaryAfter (s.drop alt.length)
    then some alt.length else none)

def markerAlts : List (List Char) :=
  ["application proof".data, "ap".data, "phip".data, "post hearing information pack".data]

def boardAlts : List (List Char) :=
  ["main board".data, "gem".data, "active".data, "inactive".data]

/-- `re.sub(r"\b(Application Proof|AP|PHIP|Post Hearing Information Pack)\b", "", s, re.I)`. -/
def subMarkerWords (cs : List Char) : List Char := runSub (ciWordAltsMatch markerAlts) cs

/-- `re.sub(r"\b(Main Board|GEM|Active|Inactive)\b", "", s, re.I)`. -/
def subBoardWords (cs : List Char) : List Char := runSub (ciWordAltsMatch boardAlts) cs

/-- Python `s.replace(pat, "")`. -/
def replaceStr (pat : List Char) (cs : List Char) : List Char :=
  runSub (fun _ s => if pat.isPrefixOf s then some pat.length else none) cs

/-- Removal of every match of one of the three date patterns. -/
def subDatePattern (m : List Char → Option (Nat × Nat × Nat × Nat)) (cs : List Char) : List Char :=
  runSub (fun _ s => (m s).map (fun x => x.2.2.2)) cs

/-- The shared marker-stripping chain of `infer_applicant_name` (the word-bounded
English markers, then the four literal Chinese marker replacements). -/
def cleanMarkers (cs : List Char) : List Char :=
  replaceStr "聆讯后资料集".data (replaceStr "聆訊後資料集".data
    (replaceStr "申请版本".data (replaceStr "申請版本".data (subMarkerWords cs))))

/-! ### Applicant-name inference -/

def applicantStopMarkers : List (List Char) :=
  [ "申請版本".data, "申请版本".data, "聆訊後資料集".data, "聆讯后资料集".data
  , "保薦人".data, "保荐人".data, "委任".data, "登錄".data, "登录".data
  , "發布日期".data, "发布日期".data ]

/-- The lookahead `(?=\s*(申請版本|…|發布日期|$))`: after greedily skipping
whitespace, the remainder starts with a stop marker or is exhausted. -/
def lookaheadStop (u : List Char) : Bool :=
  let v := u.dropWhile isWsChar
  v.isEmpty || applicantStopMarkers.any (fun mk => mk.isPrefixOf v)

/-- All non-empty newline-free prefixes of a string with their remainders, in
increasing length order — the candidate matches of a lazy `(.+?)`. -/
def dotSplits : List Char → List (List Char × List Char)
  | [] => []
  | c :: cs =>
    if c = '\n' then []
    else ([c], cs) :: (dotSplits cs).map (fun pr => (c :: pr.1, pr.2))

/-- Lazy `(.+?)(?=lookahead)`: the shortest non-empty prefix whose remainder
satisfies the lookahead. -/
def lazyGroupSearch (t : List Char) : Option (List Char) :=
  ((dotSplits t).find? (fun pr => lookaheadStop pr.2)).map (fun pr => pr.1)

def descRange (n : Nat) : List Nat := (List.range (n + 1)).reverse

def countWs (s : List Char) : Nat := (s.takeWhile isWsChar).length

/-- Backtracking for `\s*[:：]?\s*(.+?)(?=…)` after the applicant label: the
greedy whitespace stars try longest first, the optional colon tries consuming
first, and the lazy group tries shortest first — Python's exploration order. -/
def afterLabelApplicant (s : List Char) : Option (List Char) :=
  (descRange (countWs s)).findSome? (fun a =>
    let s1 := s.drop a
    let colonPaths : List (List Char) :=
      match s1 with
      | ':' :: r => [r, s1]
      | '：' :: r => [r, s1]
      | _ => [s1]
    colonPaths.findSome? (fun s2 =>
      (descRange (countWs s2)).findSome? (fun b => lazyGroupSearch (s2.drop b))))

/-- Leftmost search for `(申請人|申请人)\s*[:：]?\s*(.+?)(?=…)`, returning the
lazy group 2. -/
def applicantLabelSearch : List Char → Option (List Char)
  | [] => none
  | c :: cs =>
    (if "申請人".data.isPrefixOf (c :: cs) || "申请人".data.isPrefixOf (c :: cs) then
       afterLabelApplicant ((c :: cs).drop 3)
     else none)
    <|> applicantLabelSearch cs

structure Link where
  href : String
  text : String
deriving DecidableEq, Repr

structure Row where
  source : String
  text : String
  links : List Link
deriving DecidableEq

/-- Second phase of `infer_applicant_name`: longest normalized link text (first
among ties, as Python's stable `sorted(key=len, reverse=True)[0]`), stripped of
the AP/PHIP markers. -/
def applicantFromLinks (links : List Link) : List Char :=
  let lts := (links.map (fun l => normalize_spaces l.text.data)).filter (fun t => !t.isEmpty)
  match lts with
  | [] => []
  | h :: t =>
    let cand := t.foldl (fun best x => if best.length < x.length then x else best) h
    normalize_spaces (cleanMarkers cand)

/-- Third phase of `infer_applicant_name`: clean the whole row text of markers,
date patterns, board words and the literal `主板`/`GEM`. -/
def applicantFromRow (rowText : List Char) : List Char :=
  let c1 := cleanMarkers rowText
  let c2 := subDatePattern matchP1At c1
  let c3 := subDatePattern matchP2At c2
  let c4 := subDatePattern matchP3At c3
  let c5 := subBoardWords c4
  let c6 := replaceStr "GEM".data (replaceStr "主板".data c5)
  normalize_spaces c6

/-- `infer_applicant_name`. -/
def infer_applicant_name (rowText : List Char) (links : List Link) : List Char :=
  let combined := joinSpace (rowText :: links.map (fun l => normalize_spaces l.text.data))
  let g2cand :=
    match applicantLabelSearch combined with
    | some g2 => normalize_spaces g2
    | none => []
  if !g2cand.isEmpty then g2cand.take 300
  else
    let lc := applicantFromLinks links
    if !lc.isEmpty then lc.take 300
    else
      let rc := applicantFromRow rowText
      if rc.isEmpty then "Unknown Applicant".data else rc.take 300

/-! ### The posting-date label search of `row_to_record` -/

/-- Anchored match of `[0-9]{1,2}[\/\-][0-9]{1,2}[\/\-][0-9]{4}` (any
four-digit year), returning the matched length. -/
def matchD1At (cs : List Char) : Option Nat :=
  tryTwoThenOne cs (fun _ dn rest =>
    match rest with
    | s :: rest2 =>
      if isSepSlash s then
        tryTwoThenOne rest2 (fun _ mn rest3 =>
          match rest3 with
          | s2 :: a :: b :: c2 :: d2 :: _ =>
            if isSepSlash s2 && a.isDigit && b.isDigit && c2.isDigit && d2.isDigit then
              some (dn + 1 + mn + 1 + 4)
            else none
          | _ => none)
      else none
    | [] => none)

/-- `\s*[:：]?\s*` then the three date alternatives after a `發布日期` label.
The date alternatives start with a digit, which is neither whitespace nor a
colon, so the backtracking here is deterministic. -/
def afterLabelDate (s : List Char) : Option (List Char) :=
  let s1 := s.dropWhile isWsChar
  let s2 :=
    match s1 with
    | ':' :: r => r
    | '：' :: r => r
    | _ => s1
  let s3 := s2.dropWhile isWsChar
  match matchD1At s3 <|> (matchP1At s3).map (fun x => x.2.2.2)
      <|> (matchP3At s3).map (fun x => x.2.2.2) with
  | some k => some (s3.take k)
  | none => none

/-- Leftmost search for `(發布日期|发布日期)\s*[:：]?\s*(date)`, returning the
matched date text (group 2). -/
def dateLabelSearch : List Char → Option (List Char)
  | [] => none
  | c :: cs =>
    (if "發布日期".data.isPrefixOf (c :: cs) || "发布日期".data.isPrefixOf (c :: cs) then
       afterLabelDate ((c :: cs).drop 4)
     else none)
    <|> dateLabelSearch cs

/-! ### Records -/

structure Record where
  applicant_name : String
  board : String
  doc_type : String
  posting_date_hkt : String
  is_first_filing : Option Bool
  sponsors : List String
  link : String
  raw_row_text : String
  source_node : String
deriving DecidableEq, Repr

/-- `pick_best_link`: the first PDF-looking link, else the first link. -/
def pick_best_link (links : List Link) : Option String :=
  match links.find? (fun l => looks_like_pdf_link l.href) with
  | some l => some l.href
  | none => links.head?.map (fun l => l.href)

/-- `row_to_record`. -/
def row_to_record (row : Row) : Option Record :=
  if row.text = "" || row.links.isEmpty then none
  else if is_obvious_nav_noise row.text.data then none
  else
    let combined := joinSpace (row.text.data ::
      (row.links.map (fun l => l.text.data) ++ row.links.map (fun l => l.href.data)))
    if !hasMaterialHint combined then none
    else
      match pick_best_link row.links with
      | none => none
      | some bl =>
        if bl = "" then none
        else
          let dateFromLabel :=
            match dateLabelSearch combined with
            | some g2 => parse_any_date_to_iso (String.mk g2)
            | none => none
          match dateFromLabel <|> parse_any_date_to_iso row.text
              <|> row.links.findSome? (fun l => parse_any_date_to_iso l.text) with
          | none => none
          | some dateIso =>
            let docType :=
              match detect_doc_type combined with
              | some d => d
              | none =>
                (detect_doc_type (joinSpace (row.links.map (fun l => l.href.data)))).getD "Unknown"
            let board := (detect_board combined).getD "Unknown"
            let applicantName := infer_applicant_name row.text.data row.links
            if 300 < applicantName.length then none
            else
              some
                { applicant_name := String.mk applicantName
                  board := board
                  doc_type := docType
                  posting_date_hkt := dateIso
                  is_first_filing := none
                  sponsors := []
                  link := bl
                  raw_row_text := row.text
                  source_node := row.source }


/-! ### Deduplication -/

/-- The deduplication key `(posting_date_hkt, doc_type, link)`. -/
def recKey (r : Record) : String × String × String :=
  (r.posting_date_hkt, r.doc_type, r.link)

/-- The loop of `dedupe_records`; `seen` is the set of keys already emitted. -/
def dedupeAux (seen : List (String × String × String)) : List Record → List Record
  | [] => []
  | r :: rest =>
    if recKey r ∈ seen then dedupeAux seen rest
    else r :: dedupeAux (recKey r :: seen) rest

/-- `dedupe_records`. -/
def dedupe_records (records : List Record) : List Record := dedupeAux [] records

/-! ### Sorting of the filtered records -/

/-- `board_rank = {"Main Board": 0, "GEM": 1, "Unknown": 2}` with `.get(_, 9)`. -/
def board_rank (b : String) : Nat :=
  if b = "Main Board" then 0
  else if b = "GEM" then 1
  else if b = "Unknown" then 2
  else 9

/-- The Python sort key `(board_rank.get(board, 9), applicant_name)`. -/
def recSortKey (r : Record) : Nat × String := (board_rank r.board, r.applicant_name)

/-- Strict lexicographic order on sort keys, Python's tuple `<`. -/
def keyLt (p q : Nat × String) : Prop := p.1 < q.1 ∨ (p.1 = q.1 ∧ p.2 < q.2)

instance (p q : Nat × String) : Decidable (keyLt p q) := by
  unfold keyLt; infer_instance

/-- Stable insertion: `r` goes after every element strictly below it and before
the first element not strictly below it, which keeps the original order of
equal keys, as Python's stable `list.sort` does. -/
def insertRec (r : Record) : List Record → List Record
  | [] => [r]
  | x :: xs => if keyLt (recSortKey x) (recSortKey r) then x :: insertRec r xs else r :: x :: xs

/-- `filtered.sort(key=lambda x: (board_rank.get(...), applicant_name))`:
stable sort by the key, modelled by stable insertion sort. -/
def sortRecords : List Record → List Record
  | [] => []
  | x :: xs => insertRec x (sortRecords xs)

/-! ### The payload -/

structure Payload where
  target_date_hkt : String
  source : String
  count : Nat
  items : List Record
  message : String
deriving DecidableEq

/-- `(now - timedelta(days=1)).date()` for a Hong Kong timestamp on calendar
date `(y, m, d)`: Hong Kong Time has a fixed UTC offset, so subtracting 24
hours gives exactly the previous calendar date. -/
def prevDay : Nat × Nat × Nat → Nat × Nat × Nat
  | (y, m, d) =>
    if 1 < d then (y, m, d - 1)
    else if 1 < m then (y, m - 1, daysInMonth y (m - 1))
    else (y - 1, 12, 31)

def isoOfDate : Nat × Nat × Nat → String
  | (y, m, d) => isoOfYMD y m d

/-- The pure core of `build_payload`, parameterised by the calendar date of
`hkt_now()` and by the rows returned by `scrape_hkex_rows()`.  The
`generated_at` timestamp and the `debug` block, which no claim mentions, are
omitted; the remaining fields are built exactly as in the source. -/
def build_payload (now : Nat × Nat × Nat) (raw_rows : List Row) : Payload :=
  let target_date := isoOfDate (prevDay now)
  let parsed_records := raw_rows.filterMap row_to_record
  let parsed_records := dedupe_records parsed_records
  let filtered := parsed_records.filter
    (fun r => r.posting_date_hkt == target_date && r.doc_type == "AP")
  let filtered := sortRecords filtered
  { target_date_hkt := target_date
    source := "HKEX Application Proof / PHIP page (scraped by Playwright)"
    count := filtered.length
    items := filtered
    message :=
      if filtered.length == 0 then
        "No new HKEX AP postings found for the previous Hong Kong calendar day."
      else "" }

/-- The JSON keys of a serialized record, as written by the dict literal at
the end of `row_to_record` (every record carries all of them). -/
def recordJsonKeys (_ : Record) : List String :=
  [ "applicant_name", "board", "doc_type", "posting_date_hkt", "is_first_filing"
  , "sponsors", "link", "raw_row_text", "source_node" ]

/-! ### `send_email.py`: required environment variables and `latest.json` -/

/-- `getenv_required`, with the process environment passed explicitly
(`env name = none` means the variable is unset; `os.getenv(name, "")` then
yields the empty string). -/
def getenv_required (env : String → Option String) (name : String) : Except String String :=
  let v := String.mk (pyStrip ((env name).getD "").data)
  if v = "" then Except.error ("Missing required env var: " ++ name)
  else Except.ok v

/-- `load_latest`, with the filesystem abstracted to whether `latest.json`
exists, its path string, and its text (JSON decoding of the text, which the
claim does not touch, is left out). -/
def load_latest (latestExists : Bool) (pathStr : String) (contents : String) :
    Except String String :=
  if latestExists then Except.ok contents
  else Except.error ("latest.json not found: " ++ pathStr)

/-! ### Helper lemmas: sorting -/

/-- Non-strict lexicographic order on sort keys. -/
def keyLe (p q : Nat × String) : Prop := p.1 < q.1 ∨ (p.1 = q.1 ∧ p.2 ≤ q.2)

/-- Sortedness relation on records: sort keys in non-decreasing order. -/
def recLe (a b : Record) : Prop := keyLe (recSortKey a) (recSortKey b)

theorem keyLe_of_keyLt {p q : Nat × String} (h : keyLt p q) : keyLe p q := by
  rcases h with h | ⟨e, l⟩
  · exact Or.inl h
  · exact Or.inr ⟨e, le_of_lt l⟩

theorem keyLe_of_not_keyLt {p q : Nat × String} (h : ¬ keyLt p q) : keyLe q p := by
  unfold keyLt at h
  push_neg at h
  rcases Nat.lt_or_ge q.1 p.1 with h1 | h1
  · exact Or.inl h1
  · have he : p.1 = q.1 := Nat.le_antisymm h1 h.1
    exact Or.inr ⟨he.symm, h.2 he⟩

theorem keyLe_trans {p q r : Nat × String} (h1 : keyLe p q) (h2 : keyLe q r) : keyLe p r := by
  rcases h1 with h1 | ⟨e1, l1⟩ <;> rcases h2 with h2 | ⟨e2, l2⟩
  · exact Or.inl (lt_trans h1 h2)
  · exact Or.inl (e2 ▸ h1)
  · exact Or.inl (e1 ▸ h2)
  · exact Or.inr ⟨e1.trans e2, le_trans l1 l2⟩

theorem mem_insertRec {a r : Record} {l : List Record} :
    a ∈ insertRec r l ↔ a = r ∨ a ∈ l := by
  induction l with
  | nil => simp [insertRec]
  | cons x xs ih =>
    by_cases h : keyLt (recSortKey x) (recSortKey r)
    · simp only [insertRec, if_pos h, List.mem_cons, ih]
      tauto
    · simp only [insertRec, if_neg h, List.mem_cons]

theorem mem_sortRecords {a : Record} {l : List Record} :
    a ∈ sortRecords l ↔ a ∈ l := by
  induction l with
  | nil => simp [sortRecords]
  | cons x xs ih => simp [sortRecords, mem_insertRec, ih]

theorem pairwise_insertRec {r : Record} {l : List Record}
    (h : l.Pairwise recLe) : (insertRec r l).Pairwise recLe := by
  induction l with
  | nil => simp [insertRec]
  | cons x xs ih =>
    rcases List.pairwise_cons.mp h with ⟨hx, hxs⟩
    by_cases hk : keyLt (recSortKey x) (recSortKey r)
    · rw [insertRec, if_pos hk]
      refine List.pairwise_cons.mpr ⟨?_, ih hxs⟩
      intro b hb
      rcases mem_insertRec.mp hb with rfl | hb
      · exact keyLe_of_keyLt hk
      · exact hx b hb
    · rw [insertRec, if_neg hk]
      refine List.pairwise_cons.mpr ⟨?_, h⟩
      intro b hb
      rcases List.mem_cons.mp hb with rfl | hb
      · exact keyLe_of_not_keyLt hk
      · exact keyLe_trans (keyLe_of_not_keyLt hk) (hx b hb)

theorem pairwise_sortRecords (l : List Record) : (sortRecords l).Pairwise recLe := by
  induction l with
  | nil => simp [sortRecords]
  | cons x xs ih => exact pairwise_insertRec ih

/-! ### Helper lemmas: deduplication -/

theorem dedupeAux_sublist (seen : List (String × String × String)) (l : List Record) :
    (dedupeAux seen l).Sublist l := by
  induction l generalizing seen with
  | nil => simp [dedupeAux]
  | cons r t ih =>
    simp only [dedupeAux]
    by_cases h : recKey r ∈ seen
    · rw [if_pos h]; exact (ih seen).cons r
    · rw [if_neg h]; exact (ih _).cons₂ r

theorem notMem_seen_of_mem_dedupeAux {seen : List (String × String × String)}
    {l : List Record} {r : Record} (h : r ∈ dedupeAux seen l) : recKey r ∉ seen := by
  induction l generalizing seen with
  | nil => simp [dedupeAux] at h
  | cons a t ih =>
    simp only [dedupeAux] at h
    by_cases ha : recKey a ∈ seen
    · rw [if_pos ha] at h
      exact ih h
    · rw [if_neg ha] at h
      rcases List.mem_cons.mp h with rfl | h
      · exact ha
      · intro hc
        exact ih h (List.mem_cons_of_mem _ hc)

theorem pairwise_key_dedupeAux (seen : List (String × String × String)) (l : List Record) :
    (dedupeAux seen l).Pairwise (fun a b => recKey a ≠ recKey b) := by
  induction l generalizing seen with
  | nil => simp [dedupeAux]
  | cons a t ih =>
    simp only [dedupeAux]
    by_cases ha : recKey a ∈ seen
    · rw [if_pos ha]; exact ih seen
    · rw [if_neg ha]
      refine List.pairwise_cons.mpr ⟨?_, ih _⟩
      intro b hb he
      exact notMem_seen_of_mem_dedupeAux hb (by rw [← he]; exact List.mem_cons_self _ _)

theorem mem_dedupeAux {seen : List (String × String × String)} {l : List Record} {r : Record} :
    r ∈ dedupeAux seen l ↔
      recKey r ∉ seen ∧
        ∃ l₁ l₂, l = l₁ ++ r :: l₂ ∧ ∀ x ∈ l₁, recKey x ≠ recKey r := by
  induction l generalizing seen with
  | nil =>
    simp only [dedupeAux, List.not_mem_nil, false_iff, not_and]
    intro _ hex
    rcases hex with ⟨l₁, l₂, he, -⟩
    exact (List.cons_ne_nil r l₂) (List.append_eq_nil.mp he.symm).2
  | cons a t ih =>
    simp only [dedupeAux]
    by_cases ha : recKey a ∈ seen
    · rw [if_pos ha, ih]
      constructor
      · rintro ⟨hr, l₁, l₂, rfl, hfst⟩
        refine ⟨hr, a :: l₁, l₂, rfl, ?_⟩
        intro x hx
        rcases List.mem_cons.mp hx with rfl | hx
        · intro he
          exact hr (he ▸ ha)
        · exact hfst x hx
      · rintro ⟨hr, l₁, l₂, heq, hfst⟩
        cases l₁ with
        | nil =>
          simp only [List.nil_append] at heq
          cases heq
          exact absurd ha hr
        | cons y l₁ =>
          simp only [List.cons_append] at heq
          cases heq
          exact ⟨hr, l₁, l₂, rfl, fun x hx => hfst x (List.mem_cons_of_mem _ hx)⟩
    · rw [if_neg ha]
      constructor
      · intro h
        rcases List.mem_cons.mp h with rfl | h
        · exact ⟨ha, [], t, rfl, by simp⟩
        · rcases ih.mp h with ⟨hr, l₁, l₂, rfl, hfst⟩
          refine ⟨fun hc => hr (List.mem_cons_of_mem _ hc), a :: l₁, l₂, rfl, ?_⟩
          intro x hx
          rcases List.mem_cons.mp hx with rfl | hx
          · intro he
            exact hr (by rw [← he]; exact List.mem_cons_self _ _)
          · exact hfst x hx
      · rintro ⟨hr, l₁, l₂, heq, hfst⟩
        cases l₁ with
        | nil =>
          simp only [List.nil_append] at heq
          cases heq
          exact List.mem_cons_self _ _
        | cons y l₁ =>
          simp only [List.cons_append] at heq
          cases heq
          refine List.mem_cons_of_mem _ (ih.mpr ⟨?_, l₁, l₂, rfl, ?_⟩)
          · intro hc
            rcases List.mem_cons.mp hc with he | hc
            · exact hfst a (List.mem_cons_self _ _) he.symm
            · exact hr hc
          · exact fun x hx => hfst x (List.mem_cons_of_mem _ hx)

/-! ### Helper lemmas: the payload pipeline -/

theorem build_payload_items (now : Nat × Nat × Nat) (rows : List Row) :
    (build_payload now rows).items =
      sortRecords ((dedupe_records (rows.filterMap row_to_record)).filter
        (fun r => r.posting_date_hkt == isoOfDate (prevDay now) && r.doc_type == "AP")) := rfl

theorem build_payload_count_items (now : Nat × Nat × Nat) (rows : List Row) :
    (build_payload now rows).count = (build_payload now rows).items.length := rfl

theorem build_payload_message_eq (now : Nat × Nat × Nat) (rows : List Row) :
    (build_payload now rows).message =
      if (build_payload now rows).items.length == 0 then
        "No new HKEX AP postings found for the previous Hong Kong calendar day."
      else "" := rfl

theorem row_origin_of_mem_items {now : Nat × Nat × Nat} {rows : List Row} {r : Record}
    (h : r ∈ (build_payload now rows).items) :
    ∃ row ∈ rows, row_to_record row = some r := by
  rw [build_payload_items, mem_sortRecords] at h
  have h2 := (List.mem_filter.mp h).1
  have h3 : r ∈ rows.filterMap row_to_record := (dedupeAux_sublist [] _).subset h2
  exact List.mem_filterMap.mp h3

/-! ### Sample inputs used by the witnesses -/

def now0 : Nat × Nat × Nat := (2024, 3, 6)

def rowAP : Row :=
  { source := "tr"
  , text := "ABC Company Limited Application Proof Main Board 2024-03-05"
  , links := [{ href := "https://ex.com/doc.pdf", text := "Application Proof" }] }

/-- The record `row_to_record` builds from `rowAP`. -/
def recAP : Record :=
  { applicant_name := "ABC Company Limited"
  , board := "Main Board"
  , doc_type := "AP"
  , posting_date_hkt := "2024-03-05"
  , is_first_filing := none
  , sponsors := []
  , link := "https://ex.com/doc.pdf"
  , raw_row_text := "ABC Company Limited Application Proof Main Board 2024-03-05"
  , source_node := "tr" }

/-- A row carrying a PHIP document posted on the previous Hong Kong day. -/
def rowPHIP : Row :=
  { source := "tr"
  , text := "XYZ Holdings PHIP Main Board 2024-03-05"
  , links := [{ href := "https://ex.com/p.pdf", text := "PHIP" }] }

def rA : Record :=
  { applicant_name := "Alpha", board := "Main Board", doc_type := "AP"
  , posting_date_hkt := "2024-03-05", is_first_filing := none, sponsors := []
  , link := "https://ex.com/a.pdf", raw_row_text := "a", source_node := "tr" }

def rB : Record :=
  { applicant_name := "Beta", board := "GEM", doc_type := "AP"
  , posting_date_hkt := "2024-03-05", is_first_filing := none, sponsors := []
  , link := "https://ex.com/b.pdf", raw_row_text := "b", source_node := "tr" }

/-- Same dedupe key as `rA`, different applicant text. -/
def rA2 : Record :=
  { applicant_name := "Alpha again", board := "Main Board", doc_type := "AP"
  , posting_date_hkt := "2024-03-05", is_first_filing := none, sponsors := []
  , link := "https://ex.com/a.pdf", raw_row_text := "a2", source_node := "li" }

/-! ### The claims -/

/-- C1: every record in the persisted payload's items is dated exactly one
Hong Kong calendar day before the HKT timestamp at which `build_payload` ran;
no record with any other posting date appears. -/
theorem c1_items_dated_previous_hkt_day (now : Nat × Nat × Nat) (rows : List Row)
    (r : Record) (h : r ∈ (build_payload now rows).items) :
    r.posting_date_hkt = isoOfDate (prevDay now) := by
  rw [build_payload_items, mem_sortRecords] at h
  have hp := (List.mem_filter.mp h).2
  simp only [Bool.and_eq_true, beq_iff_eq] at hp
  exact hp.1

theorem c1_witness :
    recAP ∈ (build_payload now0 [rowAP]).items ∧
      recAP.posting_date_hkt = isoOfDate (prevDay now0) :=
  ⟨by decide, c1_items_dated_previous_hkt_day now0 [rowAP] recAP (by decide)⟩

/-- C2 is false on the code: `build_payload` keeps only `doc_type == "AP"`.
Here a deduplicated record with the target posting date and type PHIP exists,
yet the payload's items are empty. -/
theorem c2_phip_excluded_cex :
    ((dedupe_records (List.filterMap row_to_record [rowPHIP])).filter
        (fun r => r.posting_date_hkt == isoOfDate (prevDay now0)
          && r.doc_type == "PHIP")).length = 1
      ∧ (build_payload now0 [rowPHIP]).items = [] :=
  ⟨by decide, by decide⟩

/-- C2 amended: a parsed, deduplicated record appears in the payload's items
iff its posting date is the previous Hong Kong calendar day AND its document
type is AP; PHIP records are excluded by the filter. -/
theorem c2_amended_only_ap_reported (now : Nat × Nat × Nat) (rows : List Row) (r : Record) :
    r ∈ (build_payload now rows).items ↔
      r ∈ dedupe_records (rows.filterMap row_to_record)
        ∧ r.posting_date_hkt = isoOfDate (prevDay now) ∧ r.doc_type = "AP" := by
  rw [build_payload_items, mem_sortRecords, List.mem_filter]
  simp only [Bool.and_eq_true, beq_iff_eq, and_assoc]

theorem c2_amended_witness : recAP ∈ (build_payload now0 [rowAP]).items :=
  (c2_amended_only_ap_reported now0 [rowAP] recAP).mpr ⟨by decide, by decide, by decide⟩

/-- C3: the payload's items are exactly the scraped rows classified by
`row_to_record` (discarding rejected rows), then deduplicated, then filtered
to the target date and document type, then sorted — deduplication before the
date filter and sorting after it. -/
theorem c3_pipeline_stage_order (now : Nat × Nat × Nat) (rows : List Row) :
    (build_payload now rows).items =
      sortRecords ((dedupe_records (rows.filterMap row_to_record)).filter
        (fun r => r.posting_date_hkt == isoOfDate (prevDay now) && r.doc_type == "AP")) :=
  build_payload_items now rows

/-- C4: `dedupe_records` returns a subsequence of its input (hence preserves
relative order), no two kept records share a `(posting_date, doc_type, link)`
key, and a record is kept iff it is the first occurrence of its key. -/
theorem c4_dedupe_keeps_first_occurrences (l : List Record) :
    (dedupe_records l).Sublist l
      ∧ (dedupe_records l).Pairwise (fun a b => recKey a ≠ recKey b)
      ∧ ∀ r : Record, r ∈ dedupe_records l ↔
          ∃ l₁ l₂, l = l₁ ++ r :: l₂ ∧ ∀ x ∈ l₁, recKey x ≠ recKey r := by
  refine ⟨dedupeAux_sublist [] l, pairwise_key_dedupeAux [] l, fun r => ?_⟩
  rw [dedupe_records, mem_dedupeAux]
  simp

theorem c4_witness :
    (dedupe_records [rA, rB, rA2]).Sublist [rA, rB, rA2]
      ∧ rA ∈ dedupe_records [rA, rB, rA2] :=
  ⟨(c4_dedupe_keeps_first_occurrences [rA, rB, rA2]).1,
    ((c4_dedupe_keeps_first_occurrences [rA, rB, rA2]).2.2 rA).mpr
      ⟨[], [rB, rA2], rfl, by simp⟩⟩

/-- C5: every record built by `row_to_record` carries applicant name, board,
document type, posting date, link and raw text among its serialized JSON keys,
and every record that reaches the payload's items comes from `row_to_record`,
so the same field-presence invariant holds there. -/
theorem c5_record_fields_present :
    (∀ row r, row_to_record row = some r →
        ∀ k ∈ [ "applicant_name", "board", "doc_type", "posting_date_hkt", "link"
              , "raw_row_text" ], k ∈ recordJsonKeys r)
      ∧ ∀ (now : Nat × Nat × Nat) (rows : List Row) (r : Record),
          r ∈ (build_payload now rows).items →
            ∃ row ∈ rows, row_to_record row = some r
              ∧ ∀ k ∈ [ "applicant_name", "board", "doc_type", "posting_date_hkt", "link"
                      , "raw_row_text" ], k ∈ recordJsonKeys r := by
  have hkeys : ∀ r : Record,
      ∀ k ∈ [ "applicant_name", "board", "doc_type", "posting_date_hkt", "link"
            , "raw_row_text" ], k ∈ recordJsonKeys r := by
    intro r k hk
    simp only [List.mem_cons, List.not_mem_nil, or_false] at hk
    simp [recordJsonKeys]
    tauto
  refine ⟨fun row r _ => hkeys r, fun now rows r h => ?_⟩
  rcases row_origin_of_mem_items h with ⟨row, hrow, he⟩
  exact ⟨row, hrow, he, hkeys r⟩

theorem c5_witness :
    row_to_record rowAP = some recAP ∧ "posting_date_hkt" ∈ recordJsonKeys recAP :=
  ⟨by decide,
    c5_record_fields_present.1 rowAP recAP (by decide) "posting_date_hkt" (by simp)⟩

theorem board_rank_eq_zero_iff {b : String} : board_rank b = 0 ↔ b = "Main Board" := by
  unfold board_rank
  split_ifs with h1 h2 h3 <;> simp_all

theorem board_rank_eq_one_iff {b : String} : board_rank b = 1 ↔ b = "GEM" := by
  unfold board_rank
  split_ifs with h1 h2 h3 <;> simp_all

/-- C6: in the payload's items, Main Board records come before GEM records,
GEM records come before records of any other board, and records of equal board
rank are in non-decreasing applicant-name order. -/
theorem c6_items_sorted_by_board_then_name (now : Nat × Nat × Nat) (rows : List Row) :
    (build_payload now rows).items.Pairwise (fun a b =>
      (b.board = "Main Board" → a.board = "Main Board")
        ∧ (b.board = "GEM" → a.board = "Main Board" ∨ a.board = "GEM")
        ∧ (board_rank a.board = board_rank b.board →
            a.applicant_name ≤ b.applicant_name)) := by
  have hp : (build_payload now rows).items.Pairwise recLe := by
    rw [build_payload_items]
    exact pairwise_sortRecords _
  refine hp.imp ?_
  intro a b hab
  simp only [recLe, keyLe, recSortKey] at hab
  rcases hab with hlt | ⟨heq, hle⟩
  · refine ⟨?_, ?_, ?_⟩
    · intro hb
      have h0 : board_rank b.board = 0 := by rw [hb]; decide
      rw [h0] at hlt
      exact absurd hlt (Nat.not_lt_zero _)
    · intro hb
      have h1 : board_rank b.board = 1 := by rw [hb]; decide
      rw [h1] at hlt
      have h0 : board_rank a.board = 0 := Nat.lt_one_iff.mp hlt
      exact Or.inl (board_rank_eq_zero_iff.mp h0)
    · intro he
      rw [he] at hlt
      exact absurd hlt (lt_irrefl _)
  · refine ⟨?_, ?_, fun _ => hle⟩
    · intro hb
      have h0 : board_rank b.board = 0 := by rw [hb]; decide
      exact board_rank_eq_zero_iff.mp (heq.trans h0)
    · intro hb
      have h1 : board_rank b.board = 1 := by rw [hb]; decide
      exact Or.inr (board_rank_eq_one_iff.mp (heq.trans h1))

theorem c6_witness :
    (build_payload now0 [rowAP, rowPHIP]).items.Pairwise (fun a b =>
      (b.board = "Main Board" → a.board = "Main Board")
        ∧ (b.board = "GEM" → a.board = "Main Board" ∨ a.board = "GEM")
        ∧ (board_rank a.board = board_rank b.board →
            a.applicant_name ≤ b.applicant_name)) :=
  c6_items_sorted_by_board_then_name now0 [rowAP, rowPHIP]

/-- C7: `parse_any_date_to_iso` tries the year-first numeric pattern, then the
day-first numeric pattern, then the Chinese pattern; the first matching
pattern decides the result — its ISO-8601 date when the matched numbers form a
valid calendar date, `none` otherwise without trying the later patterns — and
the result is `none` when no pattern matches. -/
theorem c7_parse_date_pattern_order (t : String) :
    (∀ y mo d, searchP1 (pyStrip t.data) = some (y, mo, d) →
        parse_any_date_to_iso t = if validYMD y mo d then some (isoOfYMD y mo d) else none)
      ∧ (searchP1 (pyStrip t.data) = none →
          ∀ y mo d, searchP2 (pyStrip t.data) = some (y, mo, d) →
            parse_any_date_to_iso t
              = if validYMD y mo d then some (isoOfYMD y mo d) else none)
      ∧ (searchP1 (pyStrip t.data) = none → searchP2 (pyStrip t.data) = none →
          ∀ y mo d, searchP3 (pyStrip t.data) = some (y, mo, d) →
            parse_any_date_to_iso t
              = if validYMD y mo d then some (isoOfYMD y mo d) else none)
      ∧ (searchP1 (pyStrip t.data) = none → searchP2 (pyStrip t.data) = none →
          searchP3 (pyStrip t.data) = none → parse_any_date_to_iso t = none) := by
  refine ⟨?_, ?_, ?_, ?_⟩ <;> intros <;> simp only [parse_any_date_to_iso, *]

/-- Witness for C7: the year-first pattern matches an invalid date (February
30th), so the parse is `none` even though the Chinese pattern later in the
text holds a valid date. -/
theorem c7_witness :
    searchP1 (pyStrip ("2024-02-30 2026年2月26日" : String).data) = some (2024, 2, 30)
      ∧ parse_any_date_to_iso "2024-02-30 2026年2月26日" = none := by
  refine ⟨by decide, ?_⟩
  have h := (c7_parse_date_pattern_order "2024-02-30 2026年2月26日").1 2024 2 30 (by decide)
  rw [h]
  decide

/-- C8: `getenv_required` raises exactly when the variable is unset, empty or
whitespace-only (the stripped value is empty) and returns the stripped value
otherwise; `load_latest` raises when `latest.json` does not exist and returns
the file content otherwise; neither substitutes a default. -/
theorem c8_failures_surface_by_raising (env : String → Option String) (name : String)
    (pathStr contents : String) :
    (String.mk (pyStrip ((env name).getD "").data) = "" →
        getenv_required env name = Except.error ("Missing required env var: " ++ name))
      ∧ (String.mk (pyStrip ((env name).getD "").data) ≠ "" →
          getenv_required env name
            = Except.ok (String.mk (pyStrip ((env name).getD "").data)))
      ∧ load_latest false pathStr contents
          = Except.error ("latest.json not found: " ++ pathStr)
      ∧ load_latest true pathStr contents = Except.ok contents := by
  refine ⟨fun h => ?_, fun h => ?_, rfl, rfl⟩ <;> simp [getenv_required, h]

theorem c8_witness :
    getenv_required (fun _ => none) "SMTP_HOST"
        = Except.error ("Missing required env var: " ++ "SMTP_HOST")
      ∧ getenv_required (fun _ => some "  smtp.example.com ") "SMTP_HOST"
          = Except.ok "smtp.example.com"
      ∧ load_latest false "data/latest.json" "{}"
          = Except.error ("latest.json not found: " ++ "data/latest.json") := by
  refine ⟨(c8_failures_surface_by_raising (fun _ => none) "SMTP_HOST" "p" "c").1 (by decide),
    ?_, (c8_failures_surface_by_raising (fun _ => none) "SMTP_HOST"
      "data/latest.json" "{}").2.2.1⟩
  have h := (c8_failures_surface_by_raising (fun _ => some "  smtp.example.com ")
    "SMTP_HOST" "p" "c").2.1 (by decide)
  rw [h]
  exact congrArg Except.ok (by decide)

/-- C9: `detect_doc_type` gives PHIP priority — any PHIP marker yields "PHIP"
even when an AP marker is also present; "AP" is returned exactly when no PHIP
marker is present but an AP marker (including a standalone word `ap`) is; and
the result is `none` when neither kind of marker is present. -/
theorem c9_phip_priority_over_ap (raw : List Char) :
    (phipMarkerPresent raw = true → detect_doc_type raw = some "PHIP")
      ∧ (phipMarkerPresent raw = false → apMarkerPresent raw = true →
          detect_doc_type raw = some "AP")
      ∧ (phipMarkerPresent raw = false → apMarkerPresent raw = false →
          detect_doc_type raw = none) := by
  unfold detect_doc_type phipMarkerPresent apMarkerPresent
  refine ⟨fun h => ?_, fun h1 h2 => ?_, fun h1 h2 => ?_⟩
  · simp [h]
  · by_cases hb : (listContainsSub (lowerList raw) "application proof".data
        || listContainsSub raw "申請版本".data || listContainsSub raw "申请版本".data) = true
    · simp [h1, hb]
    · rw [Bool.not_eq_true] at hb
      rw [hb, Bool.false_or] at h2
      simp [h1, hb, h2]
  · rcases Bool.or_eq_false_iff.mp h2 with ⟨hb, hs⟩
    simp [h1, hb, hs]

/-- Witness for C9: a text containing both an AP marker and a PHIP marker is
classified as PHIP. -/
theorem c9_witness :
    phipMarkerPresent ("Application Proof PHIP" : String).data = true
      ∧ apMarkerPresent ("Application Proof PHIP" : String).data = true
      ∧ detect_doc_type ("Application Proof PHIP" : String).data = some "PHIP" :=
  ⟨by decide, by decide,
    (c9_phip_priority_over_ap ("Application Proof PHIP" : String).data).1 (by decide)⟩

/-- C10: the payload's `count` equals the length of `items`, and `message` is
the fixed no-new-postings sentence exactly when `count` is zero and the empty
string otherwise. -/
theorem c10_payload_count_message_consistent (now : Nat × Nat × Nat) (rows : List Row) :
    (build_payload now rows).count = (build_payload now rows).items.length
      ∧ ((build_payload now rows).message ≠ "" ↔ (build_payload now rows).count = 0)
      ∧ ((build_payload now rows).count = 0 →
          (build_payload now rows).message
            = "No new HKEX AP postings found for the previous Hong Kong calendar day.")
      ∧ ((build_payload now rows).count ≠ 0 → (build_payload now rows).message = "") := by
  refine ⟨build_payload_count_items now rows, ?_, ?_, ?_⟩ <;>
    rw [build_payload_message_eq, build_payload_count_items] <;>
    by_cases h : (build_payload now rows).items.length = 0 <;>
    simp [h]

theorem c10_witness :
    (build_payload now0 [rowAP]).count = (build_payload now0 [rowAP]).items.length
      ∧ (build_payload now0 [rowAP]).message = "" :=
  ⟨(c10_payload_count_message_consistent now0 [rowAP]).1,
    (c10_payload_count_message_consistent now0 [rowAP]).2.2.2 (by decide)⟩
